import Mathlib

set_option maxRecDepth 100000

/- Shallow embedding of the serverista p2p-client protocol core, translated
   from the Go source: canonical payload construction (buildPayload),
   identity derivation (Ed25519PubKeyToDID), request signing
   (createCanonicalHeader, New), message framing (writeMessage, readMessage)
   and the response handling of the exchange orchestrator (request).
   Machine integers are modelled as Nat with explicit reduction modulo
   2 ^ 32 or 2 ^ 64 where the Go code computes on uint32 or uint64. -/

/-- Modulus of 32-bit machine words. -/
def M32 : Nat := 4294967296

/-- Modulus of 64-bit machine words. -/
def M64 : Nat := 18446744073709551616

/-- Rotation of a 32-bit word right by n bits (inputs below 2 ^ 32). -/
def rotr32 (x n : Nat) : Nat := ((x >>> n) ||| (x <<< (32 - n))) % M32

/-- Bitwise complement of a 32-bit word. -/
def not32 (x : Nat) : Nat := x ^^^ 4294967295

/- SHA-256, translated from the FIPS 180-4 algorithm implemented by the
   Go standard library package crypto/sha256 that buildPayload calls. -/

def ch32 (e f g : Nat) : Nat := (e &&& f) ^^^ (not32 e &&& g)

def maj32 (a b c : Nat) : Nat := (a &&& b) ^^^ (a &&& c) ^^^ (b &&& c)

def bsig0 (x : Nat) : Nat := rotr32 x 2 ^^^ rotr32 x 13 ^^^ rotr32 x 22

def bsig1 (x : Nat) : Nat := rotr32 x 6 ^^^ rotr32 x 11 ^^^ rotr32 x 25

def ssig0 (x : Nat) : Nat := rotr32 x 7 ^^^ rotr32 x 18 ^^^ (x >>> 3)

def ssig1 (x : Nat) : Nat := rotr32 x 17 ^^^ rotr32 x 19 ^^^ (x >>> 10)

/-- The 64 SHA-256 round constants of FIPS 180-4, written in decimal. -/
def sha256K : List Nat :=
  [1116352408, 1899447441, 3049323471, 3921009573, 961987163, 1508970993,
   2453635748, 2870763221, 3624381080, 310598401, 607225278, 1426881987,
   1925078388, 2162078206, 2614888103, 3248222580, 3835390401, 4022224774,
   264347078, 604807628, 770255983, 1249150122, 1555081692, 1996064986,
   2554220882, 2821834349, 2952996808, 3210313671, 3336571891, 3584528711,
   113926993, 338241895, 666307205, 773529912, 1294757372, 1396182291,
   1695183700, 1986661051, 2177026350, 2456956037, 2730485921, 2820302411,
   3259730800, 3345764771, 3516065817, 3600352804, 4094571909, 275423344,
   430227734, 506948616, 659060556, 883997877, 958139571, 1322822218,
   1537002063, 1747873779, 1955562222, 2024104815, 2227730452, 2361852424,
   2428436474, 2756734187, 3204031479, 3329325298]

/-- The SHA-256 initial hash state of FIPS 180-4, written in decimal. -/
def sha256H0 : List Nat :=
  [1779033703, 3144134277, 1013904242, 2773480762,
   1359893119, 2600822924, 528734635, 1541459225]

/-- Parse a byte list into big-endian 32-bit words. -/
def bytesToWordsBE : List Nat → List Nat
  | a :: b :: c :: d :: rest => (((a * 256 + b) * 256 + c) * 256 + d) :: bytesToWordsBE rest
  | _ => []

/-- Big-endian bytes of a 32-bit word. -/
def wordBytesBE (w : Nat) : List Nat :=
  [w / 16777216 % 256, w / 65536 % 256, w / 256 % 256, w % 256]

/-- Big-endian bytes of a 64-bit word. -/
def be64 (n : Nat) : List Nat :=
  [n / 72057594037927936 % 256, n / 281474976710656 % 256, n / 1099511627776 % 256,
   n / 4294967296 % 256, n / 16777216 % 256, n / 65536 % 256, n / 256 % 256, n % 256]

/-- SHA-256 padding: append 0x80, zeros up to 56 mod 64, and the 64-bit
bit length of the message. -/
def sha256Pad (m : List Nat) : List Nat :=
  m ++ 0x80 :: (List.replicate ((119 - m.length % 64) % 64) 0 ++ be64 (8 * m.length % M64))

/-- Extend the 16 words of a block to the 64-word message schedule
(second argument is the number of words still to append). -/
def msgSchedule : List Nat → Nat → List Nat
  | w, 0 => w
  | w, k + 1 =>
    msgSchedule
      (w ++ [(ssig1 (w.getD (w.length - 2) 0) + w.getD (w.length - 7) 0 +
              ssig0 (w.getD (w.length - 15) 0) + w.getD (w.length - 16) 0) % M32]) k

/-- One SHA-256 compression round; the state is the eight working words. -/
def roundStep (st : List Nat) (kw : Nat × Nat) : List Nat :=
  match st with
  | [a, b, c, d, e, f, g, h] =>
    let t1 := (h + bsig1 e + ch32 e f g + kw.1 + kw.2) % M32
    let t2 := (bsig0 a + maj32 a b c) % M32
    [(t1 + t2) % M32, a, b, c, (d + t1) % M32, e, f, g]
  | other => other

/-- Compress one 64-byte block into the hash state. -/
def compressBlock (h : List Nat) (block : List Nat) : List Nat :=
  let w := msgSchedule (bytesToWordsBE block) 48
  let st := List.foldl roundStep h (List.zip sha256K w)
  List.zipWith (fun x y => (x + y) % M32) h st

/-- Split a byte list into chunks of 64 (fuel-based so the kernel can
evaluate it; the fuel is the length of the list). -/
def chunksAux : Nat → List Nat → List (List Nat)
  | 0, _ => []
  | _, [] => []
  | fuel + 1, bs => bs.take 64 :: chunksAux fuel (bs.drop 64)

def chunks64 (bs : List Nat) : List (List Nat) := chunksAux bs.length bs

def concatBytes : List (List Nat) → List Nat
  | [] => []
  | l :: ls => l ++ concatBytes ls

/-- SHA-256 digest of a byte list, as the 32 digest bytes
(crypto/sha256 Sum256 in the Go source). -/
def sha256 (m : List Nat) : List Nat :=
  concatBytes ((List.foldl compressBlock sha256H0 (chunks64 (sha256Pad m))).map wordBytesBE)

/-- Lowercase hexadecimal characters of a byte list (the fmt %x verb
applied to a byte slice in the Go source). -/
def hexChars : List Nat → List Char
  | [] => []
  | b :: r => Nat.digitChar (b / 16) :: Nat.digitChar (b % 16) :: hexChars r

def hexOfBytes (bs : List Nat) : String := ⟨hexChars bs⟩

/-- Lowercase hex SHA-256 digest of the body, as computed inside
buildPayload in the Go source. -/
def sha256Hex (body : List Nat) : String := hexOfBytes (sha256 body)

/- Decimal rendering of integers, modelling the fmt %d verb the Go
source applies to the int64 timestamp. -/

/-- Little-endian base-b digits of n, fuel-based so that the kernel can
evaluate it (the fuel is n itself, which suffices for bases above 1). -/
def toBaseAux (b : Nat) : Nat → Nat → List Nat
  | 0, _ => []
  | _ + 1, 0 => []
  | fuel + 1, n + 1 => (n + 1) % b :: toBaseAux b fuel ((n + 1) / b)

def toBase (b n : Nat) : List Nat := toBaseAux b n n

/-- Decimal string of a natural number. -/
def natDecimal (n : Nat) : String :=
  if n = 0 then "0" else ⟨(toBase 10 n).reverse.map Nat.digitChar⟩

/-- Decimal string of an integer (the fmt %d verb on the int64 timestamp). -/
def intDecimal (t : Int) : String :=
  if t < 0 then "-" ++ natDecimal t.natAbs else natDecimal t.natAbs

/-- ASCII uppercase of one character (strings.ToUpper in the Go source;
only the ASCII range is modelled, the only range exercised by methods). -/
def upperChar (c : Char) : Char :=
  if 'a' ≤ c ∧ c ≤ 'z' then Char.ofNat (c.toNat - 32) else c

def strToUpper (s : String) : String := ⟨s.data.map upperChar⟩

/-- Canonical payload, translated from buildPayload in the Go source:
uppercased method, path, lowercase hex SHA-256 of the body, nonce and
decimal timestamp, joined by single newlines. -/
def buildPayload (method path : String) (body : List Nat) (nonce : String) (ts : Int) : String :=
  strToUpper method ++ "\n" ++ path ++ "\n" ++ sha256Hex body ++ "\n" ++ nonce ++ "\n" ++
    intDecimal ts

/- Base58btc and multibase, modelling the external go-multibase library
called by Ed25519PubKeyToDID (only the base58btc branch, the one the
source selects): each leading zero byte becomes the character 1, and the
remaining bytes are read as one big-endian number written in base 58. -/

def base58Alphabet : List Char :=
  "123456789ABCDEFGHJKLMNPQRSTUVWXYZabcdefghijkmnopqrstuvwxyz".data

def b58Char (d : Nat) : Char := base58Alphabet.getD d '1'

def b58IndexAux : List Char → Nat → Char → Option Nat
  | [], _, _ => none
  | a :: as, i, c => if a = c then some i else b58IndexAux as (i + 1) c

def b58Index (c : Char) : Option Nat := b58IndexAux base58Alphabet 0 c

/-- Base58btc encoding of a byte list. -/
def base58Encode (d : List Nat) : String :=
  ⟨List.replicate (d.takeWhile (fun x => x == 0)).length '1' ++
    (toBase 58 (Nat.ofDigits 256 d.reverse)).reverse.map b58Char⟩

def b58Vals : List Char → Option (List Nat)
  | [] => some []
  | c :: cs =>
    match b58Index c, b58Vals cs with
    | some d, some ds => some (d :: ds)
    | _, _ => none

/-- Base58btc decoding of a string back to a byte list. -/
def base58Decode (s : String) : Option (List Nat) :=
  match b58Vals s.data with
  | none => none
  | some ds =>
    some (List.replicate (s.data.takeWhile (fun c => c == '1')).length 0 ++
      (toBase 256 (Nat.ofDigits 58 ds.reverse)).reverse)

/-- Multibase encoding with the base58btc one-character scheme z. -/
def multibaseEncodeB58btc (d : List Nat) : String := "z" ++ base58Encode d

/-- Multibase decoding, modelling the external go-multibase Decode on the
base58btc branch the DID suffix uses. -/
def multibaseDecode (s : String) : Option (List Nat) :=
  match s.data with
  | 'z' :: rest => base58Decode ⟨rest⟩
  | _ => none

/-- The DID of an Ed25519 public key, translated from Ed25519PubKeyToDID in
the Go source: the fixed multicodec tag bytes 0xED 0x01 are prepended to
the raw key bytes and the result is multibase encoded as base58btc. The
error return of the Go function is dead code (multibase encoding of a
known base never fails), so the model is total. -/
def Ed25519PubKeyToDID (pubKey : List Nat) : String :=
  "did:key:" ++ multibaseEncodeB58btc (0xed :: 0x01 :: pubKey)

/- Standard base64 with padding, modelling the external encoding/base64
StdEncoding used on signatures by createCanonicalHeader. -/

def base64Chars : List Char :=
  "ABCDEFGHIJKLMNOPQRSTUVWXYZabcdefghijklmnopqrstuvwxyz0123456789+/".data

def b64Char (d : Nat) : Char := base64Chars.getD d 'A'

def base64Encode : List Nat → String
  | [] => ""
  | [a] => ⟨[b64Char (a / 4), b64Char (a % 4 * 16), '=', '=']⟩
  | [a, b] => ⟨[b64Char (a / 4), b64Char (a % 4 * 16 + b / 16), b64Char (b % 16 * 4), '=']⟩
  | a :: b :: c :: rest =>
    (⟨[b64Char (a / 4), b64Char (a % 4 * 16 + b / 16), b64Char (b % 16 * 4 + c / 64),
       b64Char (c % 64)]⟩ : String) ++ base64Encode rest

/-- Modelled from the spec: the external crypto/ed25519 signature scheme
used by the source is an abstract deterministic scheme in which, for a
matching key pair, verification accepts exactly the byte string the
signature was produced over (the spec: a signature is valid only for the
exact tuple it was computed over, and verification of the signed payload
succeeds for a matching pair). -/
structure SigScheme where
  Pub : Type
  Priv : Type
  Sig : Type
  keyPair : Pub → Priv → Prop
  sign : Priv → String → Sig
  verify : Pub → String → Sig → Bool
  verify_sign : ∀ pub priv, keyPair pub priv → ∀ m, verify pub m (sign priv m) = true
  verify_binds : ∀ pub priv, keyPair pub priv → ∀ m m2, verify pub m2 (sign priv m) = true → m2 = m

/-- A concrete instance of the abstract scheme (signature is the signed
string itself, verification is string equality); it satisfies both laws
and is used to instantiate theorems about the scheme at concrete inputs. -/
def eqScheme : SigScheme where
  Pub := Unit
  Priv := Unit
  Sig := String
  keyPair := fun _ _ => True
  sign := fun _ m => m
  verify := fun _ m s => m == s
  verify_sign := by intro _ _ _ m; simp
  verify_binds := by intro _ _ _ m m2 h; exact beq_iff_eq.mp h

/-- Gateway-side verification of a signature against a tuple, per the spec
verification process: rebuild the canonical payload from the tuple and
verify the signature over it. -/
def verifyTuple (S : SigScheme) (pub : S.Pub) (method path : String) (body : List Nat)
    (nonce : String) (ts : Int) (sig : S.Sig) : Bool :=
  S.verify pub (buildPayload method path body nonce ts) sig

/-- The client state, translated from the Client struct in the Go source;
the libp2p host and gateway address fields belong to the external
transport collaborator and are not modelled. The private key type is
abstract (the key bytes are only ever passed to the external signer). -/
structure Client (Priv : Type) where
  privKey : Priv
  did : String

/-- Translated from New in the Go source: the DID is derived from the
public half of the key once, at construction, and stored in the client.
The multiaddr parsing of the external multiaddr library is not modelled;
on the modelled path New always succeeds (Ed25519PubKeyToDID is total). -/
def New {Priv : Type} (toPublicKey : Priv → List Nat) (privKey : Priv) :
    Except String (Client Priv) :=
  Except.ok { privKey := privKey, did := Ed25519PubKeyToDID (toPublicKey privKey) }

/-- Translated from createCanonicalHeader in the Go source: build the
canonical payload, sign it with the private key via the external Ed25519
signer (here a function parameter), base64 the signature and format the
authorization header. The only return path of the Go function carries a
nil error, which the model renders as an unconditional Except.ok. -/
def createCanonicalHeader {Priv : Type} (ed25519Sign : Priv → String → List Nat)
    (c : Client Priv) (method path : String) (body : List Nat) (nonce : String) (ts : Int) :
    Except String (String × List Nat) :=
  let payload := buildPayload method path body nonce ts
  let sig := ed25519Sign c.privKey payload
  let sigB64 := base64Encode sig
  Except.ok ("DID " ++ c.did ++ ";sig=" ++ sigB64 ++ ";ts=" ++ intDecimal ts ++ ";nonce=" ++
    nonce, sig)

/- Message framing, translated from writeMessage and readMessage in the Go
source. A stream is a finite byte list (the stream reports end of file
after its last byte); the JSON serialization of the external encoding/json
library is a function parameter. -/

/-- The errors readMessage can surface: a short read of the 4-byte length
prefix, the zero-length check, a short read of the payload, or a
deserialization failure (returned unwrapped by the Go code; wrapped in one
constructor here to give the model a single error type). -/
inductive ReadErr where
  | eofOnLength : ReadErr
  | zeroLength : ReadErr
  | eofOnPayload : ReadErr
  | decodeFailed : String → ReadErr
deriving DecidableEq

/-- Big-endian 4-byte encoding of a uint32 (binary.BigEndian.PutUint32). -/
def be32enc (n : Nat) : List Nat := [n / 16777216 % 256, n / 65536 % 256, n / 256 % 256, n % 256]

/-- Big-endian decoding of bytes to a number (binary.BigEndian.Uint32). -/
def be32dec (bs : List Nat) : Nat := bs.foldl (fun acc b => acc * 256 + b) 0

/-- Translated from writeMessage in the Go source: marshal the value, then
write the length truncated to uint32 as a 4-byte big-endian prefix,
followed by the marshalled bytes. -/
def writeMessage {V : Type} (marshal : V → List Nat) (v : V) : List Nat :=
  let b := marshal v
  be32enc (b.length % M32) ++ b

/-- Translated from readMessage in the Go source: read exactly 4 bytes as
a length (io.ReadFull fails if the stream ends first), fail on a zero
length, read exactly that many payload bytes (again failing on a short
read), and deserialize them. -/
def readMessage {V : Type} (unmarshal : List Nat → Except String V) (s : List Nat) :
    Except ReadErr V :=
  if s.length < 4 then Except.error ReadErr.eofOnLength
  else if be32dec (s.take 4) = 0 then Except.error ReadErr.zeroLength
  else if (s.drop 4).length < be32dec (s.take 4) then Except.error ReadErr.eofOnPayload
  else
    match unmarshal ((s.drop 4).take (be32dec (s.take 4))) with
    | Except.ok v => Except.ok v
    | Except.error e => Except.error (ReadErr.decodeFailed e)

/-- The response envelope, translated from the ProxyResponse struct in the
Go source (the header map is modelled as an association list). -/
structure ProxyResponse where
  status : Int
  headers : List (String × String)
  body : List Nat
  error : String
deriving DecidableEq

/-- Errors of the response half of an exchange: a framing or decode error
from readMessage, or the application error string carried by a cleanly
decoded response. -/
inductive ExchangeErr where
  | framing : ReadErr → ExchangeErr
  | application : String → ExchangeErr
deriving DecidableEq

/-- Translated from the response handling of request in the Go source:
decode one response envelope from the stream; if the decoded envelope
carries a non-empty error string the exchange fails with that message
(errors.New(resp.Error)), otherwise the envelope is returned. -/
def exchangeRead (unmarshal : List Nat → Except String ProxyResponse) (s : List Nat) :
    Except ExchangeErr ProxyResponse :=
  match readMessage unmarshal s with
  | Except.error e => Except.error (ExchangeErr.framing e)
  | Except.ok resp =>
    if resp.error ≠ "" then Except.error (ExchangeErr.application resp.error)
    else Except.ok resp

/-- Endpoint descriptors, translated from endpoints.go. -/
structure Endpoint where
  method : String
  uri : String

def PlansEndpoint : Endpoint := { method := "GET", uri := "/v1/plans" }

def ListUserServicesEndpoint : Endpoint := { method := "GET", uri := "/v1/services" }

/-- The canonical payload signed by the i-th invocation of Plans,
translated from plans.go: every call passes the constant nonce n1, the
constant timestamp 0, a nil body and the plans endpoint, so the payload
does not depend on the invocation index. -/
def plansPayload (_call : Nat) : String :=
  buildPayload PlansEndpoint.method PlansEndpoint.uri [] "n1" 0

/-- A small concrete marshaller used to instantiate the framing theorems
(the real exchange uses the external encoding/json library). -/
def demoMarshal (b : Bool) : List Nat := [if b then 1 else 0]

def demoUnmarshal (l : List Nat) : Except String Bool :=
  if l = [1] then Except.ok true
  else if l = [0] then Except.ok false
  else Except.error "bad"

example : sha256Hex [] = "e3b0c44298fc1c149afbf4c8996fb92427ae41e4649b934ca495991b7852b855" := by
  decide

example : sha256Hex [97, 98, 99] =
    "ba7816bf8f01cfea414140de5dae2223b00361a396177a9cb410ff61f20015ad" := by
  decide

/- Lemmas. -/

theorem toBaseAux_eq (b : Nat) (hb : 2 ≤ b) :
    ∀ fuel n, n ≤ fuel → toBaseAux b fuel n = Nat.digits b n := by
  intro fuel
  induction fuel with
  | zero =>
    intro n hn
    have h0 : n = 0 := Nat.le_zero.mp hn
    subst h0
    simp [toBaseAux]
  | succ fuel ih =>
    intro n hn
    match n with
    | 0 => simp [toBaseAux]
    | m + 1 =>
      rw [toBaseAux, Nat.digits_def' (by omega : 1 < b) (Nat.succ_pos m)]
      congr 1
      have hlt : (m + 1) / b < m + 1 := Nat.div_lt_self (by omega) (by omega)
      exact ih ((m + 1) / b) (by omega)

theorem toBase_eq_digits (b n : Nat) (hb : 2 ≤ b) : toBase b n = Nat.digits b n :=
  toBaseAux_eq b hb n n (Nat.le_refl n)

theorem digitChar_ne_newline : ∀ d, d < 10 → Nat.digitChar d ≠ '\n' := by decide

theorem digitChar_ne_dash : ∀ d, d < 10 → Nat.digitChar d ≠ '-' := by decide

theorem digitChar_val : ∀ d, d < 10 → (Nat.digitChar d).toNat - 48 = d := by decide

theorem strData_inj {s t : String} (h : s.data = t.data) : s = t := by
  cases s
  cases t
  exact congrArg String.mk h

theorem parse_natDecimal (n : Nat) :
    Nat.ofDigits 10 (((natDecimal n).data.map (fun c => c.toNat - 48)).reverse) = n := by
  by_cases h : n = 0
  · subst h
    decide
  · rw [natDecimal, if_neg h]
    show Nat.ofDigits 10
        ((((toBase 10 n).reverse.map Nat.digitChar).map (fun c => c.toNat - 48)).reverse) = n
    rw [List.map_map]
    have h10 : toBase 10 n = Nat.digits 10 n := toBase_eq_digits 10 n (by omega)
    have hcong : ∀ d ∈ (toBase 10 n).reverse,
        ((fun c => c.toNat - 48) ∘ Nat.digitChar) d = id d := by
      intro d hd
      have hmem : d ∈ Nat.digits 10 n := by
        rw [← h10]
        exact List.mem_reverse.mp hd
      have hd10 : d < 10 := Nat.digits_lt_base (by omega) hmem
      simpa using digitChar_val d hd10
    rw [List.map_congr_left hcong, List.map_id, List.reverse_reverse, h10, Nat.ofDigits_digits]

theorem natDecimal_inj {a b : Nat} (h : natDecimal a = natDecimal b) : a = b := by
  have h2 := congrArg (fun s => Nat.ofDigits 10 ((s.data.map (fun c => c.toNat - 48)).reverse)) h
  simpa [parse_natDecimal] using h2

theorem natDecimal_head (n : Nat) :
    ∃ d, d < 10 ∧ (natDecimal n).data.head? = some (Nat.digitChar d) := by
  by_cases h : n = 0
  · subst h
    exact ⟨0, by omega, rfl⟩
  · rw [natDecimal, if_neg h]
    have h10 : toBase 10 n = Nat.digits 10 n := toBase_eq_digits 10 n (by omega)
    have hne : (toBase 10 n).reverse ≠ [] := by
      rw [h10]
      simpa using Nat.digits_ne_nil_iff_ne_zero.mpr h
    cases hrev : (toBase 10 n).reverse with
    | nil => exact absurd hrev hne
    | cons d tl =>
      refine ⟨d, ?_, ?_⟩
      · have hmem : d ∈ Nat.digits 10 n := by
          rw [← h10]
          refine List.mem_reverse.mp ?_
          rw [hrev]
          exact List.mem_cons_self d tl
        exact Nat.digits_lt_base (by omega) hmem
      · rfl

theorem natDecimal_ne_newline (n : Nat) : ∀ c ∈ (natDecimal n).data, c ≠ '\n' := by
  by_cases h : n = 0
  · subst h
    decide
  · rw [natDecimal, if_neg h]
    intro c hc
    have hc2 : c ∈ (toBase 10 n).reverse.map Nat.digitChar := hc
    obtain ⟨d, hd, rfl⟩ := List.mem_map.mp hc2
    have hmem : d ∈ Nat.digits 10 n := by
      rw [← toBase_eq_digits 10 n (by omega)]
      exact List.mem_reverse.mp hd
    exact digitChar_ne_newline d (Nat.digits_lt_base (by omega) hmem)

theorem intDecimal_ne_newline (t : Int) : ∀ c ∈ (intDecimal t).data, c ≠ '\n' := by
  rw [intDecimal]
  split
  · intro c hc
    rw [String.data_append] at hc
    rcases List.mem_append.mp hc with h1 | h2
    · have : c = '-' := by simpa using h1
      subst this
      decide
    · exact natDecimal_ne_newline _ c h2
  · exact natDecimal_ne_newline _

theorem intDecimal_inj {s t : Int} (h : intDecimal s = intDecimal t) : s = t := by
  rw [intDecimal, intDecimal] at h
  by_cases hs : s < 0 <;> by_cases ht : t < 0
  · rw [if_pos hs, if_pos ht] at h
    have hdata := congrArg String.data h
    rw [String.data_append, String.data_append] at hdata
    have : (natDecimal s.natAbs).data = (natDecimal t.natAbs).data :=
      List.append_cancel_left hdata
    have := natDecimal_inj (strData_inj this)
    omega
  · rw [if_pos hs, if_neg ht] at h
    obtain ⟨d, hd10, hhead⟩ := natDecimal_head t.natAbs
    have hh := congrArg (fun s => s.data.head?) h
    simp only [String.data_append] at hh
    rw [hhead] at hh
    have : ('-' : Char) = Nat.digitChar d := by
      have hmd : (("-" : String).data ++ (natDecimal s.natAbs).data).head? = some '-' := rfl
      rw [hmd] at hh
      exact Option.some.inj hh
    exact absurd this.symm (digitChar_ne_dash d hd10)
  · rw [if_neg hs, if_pos ht] at h
    obtain ⟨d, hd10, hhead⟩ := natDecimal_head s.natAbs
    have hh := congrArg (fun s => s.data.head?) h
    simp only [String.data_append] at hh
    rw [hhead] at hh
    have : ('-' : Char) = Nat.digitChar d := by
      have hmd : (("-" : String).data ++ (natDecimal t.natAbs).data).head? = some '-' := rfl
      rw [hmd] at hh
      exact Option.some.inj hh.symm
    exact absurd this.symm (digitChar_ne_dash d hd10)
  · rw [if_neg hs, if_neg ht] at h
    have := natDecimal_inj h
    omega

theorem append_last_sep_inj {α : Type} (c : α) :
    ∀ (a₁ a₂ b₁ b₂ : List α), c ∉ b₁ → c ∉ b₂ → a₁ ++ c :: b₁ = a₂ ++ c :: b₂ →
      a₁ = a₂ ∧ b₁ = b₂ := by
  intro a₁
  induction a₁ with
  | nil =>
    intro a₂ b₁ b₂ h₁ h₂ h
    cases a₂ with
    | nil =>
      refine ⟨rfl, ?_⟩
      simpa using h
    | cons x xs =>
      exfalso
      have h' : c :: b₁ = x :: (xs ++ c :: b₂) := h
      injection h' with hcx hb
      exact h₁ (hb ▸ List.mem_append_right xs (List.mem_cons_self c b₂))
  | cons y ys ih =>
    intro a₂ b₁ b₂ h₁ h₂ h
    cases a₂ with
    | nil =>
      exfalso
      have h' : y :: (ys ++ c :: b₁) = c :: b₂ := h
      injection h' with hcy hb
      exact h₂ (hb ▸ List.mem_append_right ys (List.mem_cons_self c b₁))
    | cons x xs =>
      have h' : y :: (ys ++ c :: b₁) = x :: (xs ++ c :: b₂) := h
      injection h' with hxy hb
      obtain ⟨hA, hB⟩ := ih xs b₁ b₂ h₁ h₂ hb
      exact ⟨by rw [hxy, hA], hB⟩

theorem buildPayload_data (m p : String) (b : List Nat) (n : String) (ts : Int) :
    (buildPayload m p b n ts).data =
      (strToUpper m).data ++ '\n' :: (p.data ++ '\n' :: ((sha256Hex b).data ++ '\n' ::
        (n.data ++ '\n' :: (intDecimal ts).data))) := by
  simp [buildPayload, String.data_append]

theorem payload_nonce_ts_inj (m p : String) (b : List Nat) {n₁ n₂ : String} {t₁ t₂ : Int}
    (h : buildPayload m p b n₁ t₁ = buildPayload m p b n₂ t₂) : n₁ = n₂ ∧ t₁ = t₂ := by
  have hd := congrArg String.data h
  rw [buildPayload_data, buildPayload_data] at hd
  have h1 := List.append_cancel_left hd
  injection h1 with _ h2
  have h3 := List.append_cancel_left h2
  injection h3 with _ h4
  have h5 := List.append_cancel_left h4
  injection h5 with _ h6
  have hn1 : '\n' ∉ (intDecimal t₁).data := fun hm => intDecimal_ne_newline t₁ '\n' hm rfl
  have hn2 : '\n' ∉ (intDecimal t₂).data := fun hm => intDecimal_ne_newline t₂ '\n' hm rfl
  obtain ⟨hA, hB⟩ := append_last_sep_inj '\n' n₁.data n₂.data _ _ hn1 hn2 h6
  exact ⟨strData_inj hA, intDecimal_inj (strData_inj hB)⟩

theorem payload_path_inj (m : String) (b : List Nat) (n : String) (ts : Int) {p₁ p₂ : String}
    (h : buildPayload m p₁ b n ts = buildPayload m p₂ b n ts) : p₁ = p₂ := by
  have hd := congrArg String.data h
  rw [buildPayload_data, buildPayload_data] at hd
  have h1 := List.append_cancel_left hd
  injection h1 with _ h2
  have h3 : p₁.data ++ ('\n' :: ((sha256Hex b).data ++ '\n' :: (n.data ++ '\n' ::
      (intDecimal ts).data))) = p₂.data ++ ('\n' :: ((sha256Hex b).data ++ '\n' ::
      (n.data ++ '\n' :: (intDecimal ts).data))) := h2
  exact strData_inj (List.append_cancel_right h3)

theorem payload_method_inj (p : String) (b : List Nat) (n : String) (ts : Int) {m₁ m₂ : String}
    (h : buildPayload m₁ p b n ts = buildPayload m₂ p b n ts) : strToUpper m₁ = strToUpper m₂ := by
  have hd := congrArg String.data h
  rw [buildPayload_data, buildPayload_data] at hd
  have h1 : (strToUpper m₁).data ++ ('\n' :: (p.data ++ '\n' :: ((sha256Hex b).data ++ '\n' ::
      (n.data ++ '\n' :: (intDecimal ts).data)))) = (strToUpper m₂).data ++ ('\n' ::
      (p.data ++ '\n' :: ((sha256Hex b).data ++ '\n' ::
      (n.data ++ '\n' :: (intDecimal ts).data)))) := hd
  exact strData_inj (List.append_cancel_right h1)

theorem payload_hash_inj (m p : String) (n : String) (ts : Int) {b₁ b₂ : List Nat}
    (h : buildPayload m p b₁ n ts = buildPayload m p b₂ n ts) : sha256Hex b₁ = sha256Hex b₂ := by
  have hd := congrArg String.data h
  rw [buildPayload_data, buildPayload_data] at hd
  have h1 := List.append_cancel_left hd
  injection h1 with _ h2
  have h3 := List.append_cancel_left h2
  injection h3 with _ h4
  have h5 : (sha256Hex b₁).data ++ ('\n' :: (n.data ++ '\n' :: (intDecimal ts).data)) =
      (sha256Hex b₂).data ++ ('\n' :: (n.data ++ '\n' :: (intDecimal ts).data)) := h4
  exact strData_inj (List.append_cancel_right h5)

theorem digitChar_inj16 : ∀ a, a < 16 → ∀ b, b < 16 → Nat.digitChar a = Nat.digitChar b →
    a = b := by decide

theorem hexChars_inj : ∀ (xs ys : List Nat), (∀ x ∈ xs, x < 256) → (∀ y ∈ ys, y < 256) →
    hexChars xs = hexChars ys → xs = ys := by
  intro xs
  induction xs with
  | nil =>
    intro ys _ _ h
    cases ys with
    | nil => rfl
    | cons y r =>
      exfalso
      simp [hexChars] at h
  | cons x r ih =>
    intro ys hxs hys h
    cases ys with
    | nil =>
      exfalso
      simp [hexChars] at h
    | cons y r2 =>
      rw [hexChars, hexChars] at h
      injection h with e1 h'
      injection h' with e2 h''
      have hx : x < 256 := hxs x (List.mem_cons_self x r)
      have hy : y < 256 := hys y (List.mem_cons_self y r2)
      have d1 : x / 16 = y / 16 := digitChar_inj16 _ (by omega) _ (by omega) e1
      have d2 : x % 16 = y % 16 := digitChar_inj16 _ (by omega) _ (by omega) e2
      have hxy : x = y := by omega
      have hr : r = r2 := ih r2 (fun a ha => hxs a (List.mem_cons_of_mem x ha))
        (fun a ha => hys a (List.mem_cons_of_mem y ha)) h''
      rw [hxy, hr]

theorem wordBytesBE_lt (w : Nat) : ∀ x ∈ wordBytesBE w, x < 256 := by
  intro x hx
  simp [wordBytesBE] at hx
  rcases hx with h | h | h | h <;> omega

theorem concatBytes_mem {x : Nat} : ∀ {L : List (List Nat)}, x ∈ concatBytes L →
    ∃ l ∈ L, x ∈ l := by
  intro L
  induction L with
  | nil => intro h; simp [concatBytes] at h
  | cons l ls ih =>
    intro h
    rw [concatBytes] at h
    rcases List.mem_append.mp h with h1 | h2
    · exact ⟨l, List.mem_cons_self l ls, h1⟩
    · obtain ⟨l2, hl2, hx2⟩ := ih h2
      exact ⟨l2, List.mem_cons_of_mem l hl2, hx2⟩

theorem sha256_lt (m : List Nat) : ∀ x ∈ sha256 m, x < 256 := by
  intro x hx
  obtain ⟨l, hl, hxl⟩ := concatBytes_mem hx
  obtain ⟨w, _, rfl⟩ := List.mem_map.mp hl
  exact wordBytesBE_lt w x hxl

theorem sha256Hex_inj {b₁ b₂ : List Nat} (h : sha256Hex b₁ = sha256Hex b₂) :
    sha256 b₁ = sha256 b₂ :=
  hexChars_inj _ _ (sha256_lt b₁) (sha256_lt b₂) (congrArg String.data h)

theorem b58Index_b58Char : ∀ d, d < 58 → b58Index (b58Char d) = some d := by decide

theorem b58Char_ne_one : ∀ d, d < 58 → d ≠ 0 → (b58Char d == '1') = false := by decide

theorem b58Vals_map : ∀ ds : List Nat, (∀ d ∈ ds, d < 58) →
    b58Vals (ds.map b58Char) = some ds := by
  intro ds
  induction ds with
  | nil => intro _; rfl
  | cons d rest ih =>
    intro h
    have hd : d < 58 := h d (List.mem_cons_self d rest)
    have hrest := ih (fun a ha => h a (List.mem_cons_of_mem d ha))
    show b58Vals (b58Char d :: rest.map b58Char) = some (d :: rest)
    rw [b58Vals, b58Index_b58Char d hd, hrest]

theorem base58_roundtrip (a : Nat) (rest : List Nat) (ha : a ≠ 0)
    (hlt : ∀ x ∈ a :: rest, x < 256) :
    base58Decode (base58Encode (a :: rest)) = some (a :: rest) := by
  have ha256 : a < 256 := hlt a (List.mem_cons_self a rest)
  set d : List Nat := a :: rest with hd
  set n : Nat := Nat.ofDigits 256 d.reverse with hn
  have hrevne : d.reverse ≠ [] := by simp [hd]
  have hrevlast : ∀ h : d.reverse ≠ [], d.reverse.getLast h ≠ 0 := by
    intro h
    have : d.reverse = rest.reverse ++ [a] := by simp [hd]
    rw [List.getLast_congr _ _ this]
    rw [List.getLast_concat]
    exact ha
  have hdig256 : Nat.digits 256 n = d.reverse := by
    refine Nat.digits_ofDigits 256 (by omega) d.reverse ?_ hrevlast
    intro x hx
    exact hlt x (List.mem_reverse.mp hx)
  have hn0 : n ≠ 0 := by
    intro h0
    rw [h0] at hdig256
    exact hrevne (by simpa using hdig256.symm)
  have htw : d.takeWhile (fun x => x == 0) = [] := by
    rw [hd, List.takeWhile_cons]
    have : (a == 0) = false := by simpa using ha
    rw [this]
    simp
  have henc : base58Encode d = ⟨(toBase 58 n).reverse.map b58Char⟩ := by
    rw [base58Encode, htw]
    rfl
  have h58 : toBase 58 n = Nat.digits 58 n := toBase_eq_digits 58 n (by omega)
  have hdigne : Nat.digits 58 n ≠ [] := Nat.digits_ne_nil_iff_ne_zero.mpr hn0
  have hall58 : ∀ x ∈ (toBase 58 n).reverse, x < 58 := by
    intro x hx
    rw [h58] at hx
    exact Nat.digits_lt_base (by omega) (List.mem_reverse.mp hx)
  cases hrev : (toBase 58 n).reverse with
  | nil =>
    exfalso
    rw [h58] at hrev
    exact hdigne (by simpa using hrev)
  | cons e tl =>
    have he58 : e < 58 := hall58 e (by rw [hrev]; exact List.mem_cons_self e tl)
    have hene0 : e ≠ 0 := by
      have hsplit : Nat.digits 58 n = tl.reverse ++ [e] := by
        have : (toBase 58 n).reverse.reverse = (e :: tl).reverse := by rw [hrev]
        rw [List.reverse_reverse] at this
        rw [← h58, this]
        simp
      intro he0
      have hlast := Nat.getLast_digit_ne_zero 58 hn0
      rw [List.getLast_congr _ _ hsplit, List.getLast_concat] at hlast
      exact hlast he0
    rw [henc, base58Decode]
    have hdata : ((⟨(toBase 58 n).reverse.map b58Char⟩ : String)).data =
        (toBase 58 n).reverse.map b58Char := rfl
    rw [hdata, b58Vals_map _ hall58]
    have htw2 : ((toBase 58 n).reverse.map b58Char).takeWhile (fun c => c == '1') = [] := by
      rw [hrev]
      show List.takeWhile (fun c => c == '1') (b58Char e :: tl.map b58Char) = []
      rw [List.takeWhile_cons, b58Char_ne_one e he58 hene0]
      simp
    rw [htw2]
    have hof : Nat.ofDigits 58 (toBase 58 n).reverse.reverse = n := by
      rw [List.reverse_reverse, h58, Nat.ofDigits_digits]
    show some (List.replicate ([] : List Char).length 0 ++
      (toBase 256 (Nat.ofDigits 58 (toBase 58 n).reverse.reverse)).reverse) = some d
    rw [hof]
    have h256 : toBase 256 n = Nat.digits 256 n := toBase_eq_digits 256 n (by omega)
    rw [h256, hdig256]
    simp [hd]

theorem be32_roundtrip (l : Nat) (h : l < M32) : be32dec (be32enc l) = l := by
  have h' : l < 4294967296 := h
  show ((((0 * 256 + l / 16777216 % 256) * 256 + l / 65536 % 256) * 256 + l / 256 % 256) * 256 +
    l % 256) = l
  omega

theorem take4_be32 (n : Nat) (b : List Nat) : (be32enc n ++ b).take 4 = be32enc n := rfl

theorem drop4_be32 (n : Nat) (b : List Nat) : (be32enc n ++ b).drop 4 = b := rfl

theorem len_be32_append (n : Nat) (b : List Nat) : (be32enc n ++ b).length = 4 + b.length := by
  simp [be32enc]
  omega

theorem verify_ne (S : SigScheme) (pub : S.Pub) (priv : S.Priv) (hkp : S.keyPair pub priv)
    (m m2 : String) (hne : m2 ≠ m) : S.verify pub m2 (S.sign priv m) = false := by
  cases hv : S.verify pub m2 (S.sign priv m) with
  | false => rfl
  | true => exact absurd (S.verify_binds pub priv hkp m m2 hv) hne

/-- C1: for every method, path, body, nonce and timestamp, buildPayload is
the newline join (no trailing newline) of the uppercased method, the path,
the lowercase hex SHA-256 digest of the body, the nonce and the decimal
timestamp, in that order; on GET /v1/services with empty body, nonce n-1
and timestamp 1700000000 it equals the literal canonical string (whose
digest field is the SHA-256 of the empty string). -/
theorem buildPayload_canonical_format :
    (∀ (method path : String) (body : List Nat) (nonce : String) (ts : Int),
      buildPayload method path body nonce ts =
        String.intercalate "\n"
          [strToUpper method, path, sha256Hex body, nonce, intDecimal ts]) ∧
    buildPayload "GET" "/v1/services" [] "n-1" 1700000000 =
      "GET\n/v1/services\ne3b0c44298fc1c149afbf4c8996fb92427ae41e4649b934ca495991b7852b855\nn-1\n1700000000" :=
  ⟨fun _ _ _ _ _ => rfl, by decide⟩

/-- C9: createCanonicalHeader returns a nil error on its only return path,
for every signer, client and input; the signing-failure branch at this
interface is unreachable. -/
theorem createCanonicalHeader_never_errors :
    ∀ {Priv : Type} (ed25519Sign : Priv → String → List Nat) (c : Client Priv)
      (method path : String) (body : List Nat) (nonce : String) (ts : Int),
      ∃ hs, createCanonicalHeader ed25519Sign c method path body nonce ts = Except.ok hs :=
  fun _ _ _ _ _ _ _ => ⟨_, rfl⟩

/-- C7: the authorization header is exactly DID identity, sig, ts and
nonce fields in that format, where the signature is the base64 of the
Ed25519 signature over the canonical payload and the embedded identity is
the did field stored in the client, which New computes once from the
public key at construction. -/
theorem canonical_header_format_and_identity :
    (∀ {Priv : Type} (ed25519Sign : Priv → String → List Nat) (c : Client Priv)
        (method path : String) (body : List Nat) (nonce : String) (ts : Int),
      createCanonicalHeader ed25519Sign c method path body nonce ts =
        Except.ok ("DID " ++ c.did ++ ";sig=" ++
            base64Encode (ed25519Sign c.privKey (buildPayload method path body nonce ts)) ++
            ";ts=" ++ intDecimal ts ++ ";nonce=" ++ nonce,
          ed25519Sign c.privKey (buildPayload method path body nonce ts))) ∧
    (∀ {Priv : Type} (toPublicKey : Priv → List Nat) (privKey : Priv) (c : Client Priv),
      New toPublicKey privKey = Except.ok c →
        c.did = Ed25519PubKeyToDID (toPublicKey privKey)) := by
  refine ⟨fun _ _ _ _ _ _ _ => rfl, ?_⟩
  intro Priv toPub k c h
  have h2 : Except.ok { privKey := k, did := Ed25519PubKeyToDID (toPub k) } = Except.ok c := h
  injection h2 with h3
  rw [← h3]

/-- Witness for C7 at a concrete key-byte function and client. -/
theorem canonical_header_format_and_identity_witness :
    New (fun _ : Unit => List.range 32) () =
      Except.ok { privKey := (), did := Ed25519PubKeyToDID (List.range 32) } ∧
    ({ privKey := (), did := Ed25519PubKeyToDID (List.range 32) } : Client Unit).did =
      Ed25519PubKeyToDID ((fun _ : Unit => List.range 32) ()) :=
  ⟨rfl, canonical_header_format_and_identity.2 (fun _ : Unit => List.range 32) () _ rfl⟩

/-- C8 (amended): two signing operations over the same method, path and
body sign the same canonical payload only if nonce and timestamp both
coincide; however Plans passes the constant nonce n1 and timestamp 0 on
every call, so every pair of Plans invocations signs one identical
payload. -/
theorem payload_unique_nonce_ts :
    (∀ (method path : String) (body : List Nat) (n₁ n₂ : String) (t₁ t₂ : Int),
      buildPayload method path body n₁ t₁ = buildPayload method path body n₂ t₂ →
        n₁ = n₂ ∧ t₁ = t₂) ∧
    (∀ i j : Nat, plansPayload i = plansPayload j) :=
  ⟨fun m p b _ _ _ _ h => payload_nonce_ts_inj m p b h, fun _ _ => rfl⟩

/-- Counterexample for C8 as stated: the first and the second Plans
invocation are distinct requests, yet they sign the same canonical payload
byte string (both equal to the same literal), because plans.go passes the
fixed nonce n1 and timestamp 0 on every call. -/
theorem plans_payload_reuse_cex :
    plansPayload 0 = plansPayload 1 ∧
    plansPayload 0 =
      "GET\n/v1/plans\ne3b0c44298fc1c149afbf4c8996fb92427ae41e4649b934ca495991b7852b855\nn1\n0" :=
  ⟨rfl, by decide⟩

/-- Witness for the amended C8 theorem at concrete arguments. -/
theorem payload_unique_nonce_ts_witness :
    buildPayload "GET" "/a" [] "x" 3 = buildPayload "GET" "/a" [] "x" 3 ∧
    (("x" : String) = "x" ∧ (3 : Int) = 3) :=
  ⟨rfl, payload_unique_nonce_ts.1 "GET" "/a" [] "x" "x" 3 3 rfl⟩

/-- C2 (amended): for every scheme satisfying the modelled Ed25519 laws
and matching key pair, verification of the signature over the rebuilt
payload of the same tuple succeeds, and fails whenever the path, the
nonce or the timestamp is altered, whenever the method is altered to one
with a different uppercasing, or whenever the body is altered to one with
a different SHA-256 digest; altering the method only in letter case (or
the body to a digest-colliding body) leaves the payload, and hence the
verification outcome, unchanged. -/
theorem verify_roundtrip_and_tamper :
    ∀ (S : SigScheme) (pub : S.Pub) (priv : S.Priv), S.keyPair pub priv →
    ∀ (method path : String) (body : List Nat) (nonce : String) (ts : Int),
      (verifyTuple S pub method path body nonce ts
        (S.sign priv (buildPayload method path body nonce ts)) = true) ∧
      (∀ path2, path2 ≠ path → verifyTuple S pub method path2 body nonce ts
        (S.sign priv (buildPayload method path body nonce ts)) = false) ∧
      (∀ nonce2, nonce2 ≠ nonce → verifyTuple S pub method path body nonce2 ts
        (S.sign priv (buildPayload method path body nonce ts)) = false) ∧
      (∀ ts2, ts2 ≠ ts → verifyTuple S pub method path body nonce ts2
        (S.sign priv (buildPayload method path body nonce ts)) = false) ∧
      (∀ method2, strToUpper method2 ≠ strToUpper method →
        verifyTuple S pub method2 path body nonce ts
          (S.sign priv (buildPayload method path body nonce ts)) = false) ∧
      (∀ body2, sha256 body2 ≠ sha256 body → verifyTuple S pub method path body2 nonce ts
        (S.sign priv (buildPayload method path body nonce ts)) = false) := by
  intro S pub priv hkp m p b n ts
  refine ⟨S.verify_sign pub priv hkp _, ?_, ?_, ?_, ?_, ?_⟩
  · intro p2 hne
    exact verify_ne S pub priv hkp _ _ (fun heq => hne (payload_path_inj m b n ts heq))
  · intro n2 hne
    exact verify_ne S pub priv hkp _ _
      (fun heq => hne (payload_nonce_ts_inj m p b heq).1)
  · intro t2 hne
    exact verify_ne S pub priv hkp _ _
      (fun heq => hne (payload_nonce_ts_inj m p b heq).2)
  · intro m2 hne
    exact verify_ne S pub priv hkp _ _ (fun heq => hne (payload_method_inj p b n ts heq))
  · intro b2 hne
    exact verify_ne S pub priv hkp _ _
      (fun heq => hne (sha256Hex_inj (payload_hash_inj m p n ts heq)))

/-- Counterexample for C2 as stated: altering the method field from GET to
get (a genuine alteration of the tuple) leaves the canonical payload
unchanged, because buildPayload uppercases the method, so verification
with the lawful concrete scheme still succeeds. -/
theorem verify_altered_method_case_cex :
    ("get" : String) ≠ "GET" ∧
    verifyTuple eqScheme () "get" "/v1/services" [] "n-1" 1700000000
      (eqScheme.sign () (buildPayload "GET" "/v1/services" [] "n-1" 1700000000)) = true :=
  ⟨by decide, by decide⟩

/-- Witness for the amended C2 theorem: a nonce alteration at concrete
inputs makes verification fail with the concrete lawful scheme. -/
theorem verify_roundtrip_and_tamper_witness :
    eqScheme.keyPair () () ∧ ("n-2" : String) ≠ "n-1" ∧
    verifyTuple eqScheme () "GET" "/v1/services" [] "n-2" 1700000000
      (eqScheme.sign () (buildPayload "GET" "/v1/services" [] "n-1" 1700000000)) = false :=
  ⟨trivial, by decide,
    (verify_roundtrip_and_tamper eqScheme () () trivial "GET" "/v1/services" [] "n-1"
      1700000000).2.2.1 "n-2" (by decide)⟩

/-- C3: for every 32-byte public key, Ed25519PubKeyToDID is deterministic,
its result is the fixed label did:key: followed by a multibase string with
leading z, and multibase decoding of that suffix recovers exactly the two
tag bytes 0xED 0x01 followed by the original key bytes. -/
theorem did_derivation_roundtrip :
    ∀ pk : List Nat, pk.length = 32 → (∀ x ∈ pk, x < 256) →
      Ed25519PubKeyToDID pk = Ed25519PubKeyToDID pk ∧
      ∃ mb, Ed25519PubKeyToDID pk = "did:key:" ++ mb ∧ mb.data.head? = some 'z' ∧
        multibaseDecode mb = some (0xed :: 0x01 :: pk) := by
  intro pk _ hlt
  refine ⟨rfl, multibaseEncodeB58btc (0xed :: 0x01 :: pk), rfl, rfl, ?_⟩
  show base58Decode (base58Encode (0xed :: 0x01 :: pk)) = some (0xed :: 0x01 :: pk)
  refine base58_roundtrip 0xed (0x01 :: pk) (by omega) ?_
  intro x hx
  rcases List.mem_cons.mp hx with rfl | hx2
  · omega
  rcases List.mem_cons.mp hx2 with rfl | hx3
  · omega
  · exact hlt x hx3

/-- Witness for C3 at the concrete 32-byte key 0, 1, ..., 31. -/
theorem did_derivation_roundtrip_witness :
    ((List.range 32).length = 32 ∧ (∀ x ∈ List.range 32, x < 256)) ∧
    (Ed25519PubKeyToDID (List.range 32) = Ed25519PubKeyToDID (List.range 32) ∧
      ∃ mb, Ed25519PubKeyToDID (List.range 32) = "did:key:" ++ mb ∧
        mb.data.head? = some 'z' ∧
        multibaseDecode mb = some (0xed :: 0x01 :: List.range 32)) :=
  ⟨⟨by decide, by decide⟩, did_derivation_roundtrip (List.range 32) (by decide) (by decide)⟩

/-- C4: for every envelope type and serializer that the deserializer
inverts, encoding a value with writeMessage and decoding the bytes with
readMessage returns the original value, provided the serialized payload is
nonempty and shorter than 2 ^ 32 bytes (which holds for the JSON envelopes
of the source with bodies from 0 up to far beyond 1 MiB). -/
theorem frame_roundtrip {V : Type} (marshal : V → List Nat)
    (unmarshal : List Nat → Except String V)
    (hrt : ∀ v, unmarshal (marshal v) = Except.ok v) (v : V)
    (hpos : 1 ≤ (marshal v).length) (hlt : (marshal v).length < M32) :
    readMessage unmarshal (writeMessage marshal v) = Except.ok v := by
  have hmod : (marshal v).length % M32 = (marshal v).length := Nat.mod_eq_of_lt hlt
  show readMessage unmarshal (be32enc ((marshal v).length % M32) ++ marshal v) = Except.ok v
  rw [hmod]
  unfold readMessage
  rw [take4_be32, drop4_be32, len_be32_append, be32_roundtrip _ hlt]
  rw [if_neg (by omega), if_neg (by omega), if_neg (by omega)]
  rw [List.take_length, hrt v]

/-- Witness for C4 with a concrete two-value envelope codec. -/
theorem frame_roundtrip_witness :
    ((∀ v, demoUnmarshal (demoMarshal v) = Except.ok v) ∧
      1 ≤ (demoMarshal true).length ∧ (demoMarshal true).length < M32) ∧
    readMessage demoUnmarshal (writeMessage demoMarshal true) = Except.ok true :=
  ⟨⟨fun v => by cases v <;> rfl, by decide, by decide⟩,
    frame_roundtrip demoMarshal demoUnmarshal (fun v => by cases v <;> rfl) true
      (by decide) (by decide)⟩

/-- C5: readMessage returns the zero-length error (never a success) when
the 4-byte prefix decodes to zero, the short-read payload error when the
stream ends before the declared payload is complete, and the short-read
prefix error when the stream ends inside the prefix itself. -/
theorem readMessage_error_cases {V : Type} (unmarshal : List Nat → Except String V)
    (s : List Nat) :
    (4 ≤ s.length → be32dec (s.take 4) = 0 →
      readMessage unmarshal s = Except.error ReadErr.zeroLength) ∧
    (4 ≤ s.length → be32dec (s.take 4) ≠ 0 → s.length < 4 + be32dec (s.take 4) →
      readMessage unmarshal s = Except.error ReadErr.eofOnPayload) ∧
    (s.length < 4 → readMessage unmarshal s = Except.error ReadErr.eofOnLength) := by
  refine ⟨?_, ?_, ?_⟩
  · intro hge hz
    unfold readMessage
    rw [if_neg (by omega), if_pos hz]
  · intro hge hz hshort
    unfold readMessage
    rw [if_neg (by omega), if_neg hz, if_pos (by simp; omega)]
  · intro hlt
    unfold readMessage
    rw [if_pos hlt]

/-- Witness for C5 on two concrete truncated streams. -/
theorem readMessage_error_cases_witness :
    (be32dec (([0, 0, 0, 0] : List Nat).take 4) = 0 ∧
      readMessage demoUnmarshal [0, 0, 0, 0] = Except.error ReadErr.zeroLength) ∧
    (be32dec (([0, 0, 0, 2, 9] : List Nat).take 4) ≠ 0 ∧
      readMessage demoUnmarshal [0, 0, 0, 2, 9] = Except.error ReadErr.eofOnPayload) :=
  ⟨⟨by decide, (readMessage_error_cases demoUnmarshal [0, 0, 0, 0]).1 (by decide) (by decide)⟩,
   ⟨by decide, (readMessage_error_cases demoUnmarshal [0, 0, 0, 2, 9]).2.1 (by decide)
     (by decide) (by decide)⟩⟩

/-- C6: when the response frame decodes successfully, the exchange fails
with the application error carrying the envelope error string exactly when
that string is non-empty, and returns the decoded envelope exactly when it
is empty. -/
theorem exchange_application_error (unmarshal : List Nat → Except String ProxyResponse)
    (s : List Nat) (resp : ProxyResponse)
    (h : readMessage unmarshal s = Except.ok resp) :
    (resp.error = "" → exchangeRead unmarshal s = Except.ok resp) ∧
    (resp.error ≠ "" →
      exchangeRead unmarshal s = Except.error (ExchangeErr.application resp.error)) := by
  unfold exchangeRead
  rw [h]
  constructor
  · intro he
    show (if resp.error ≠ "" then Except.error (ExchangeErr.application resp.error)
      else Except.ok resp) = Except.ok resp
    rw [if_neg (by simp [he])]
  · intro he
    show (if resp.error ≠ "" then Except.error (ExchangeErr.application resp.error)
      else Except.ok resp) = Except.error (ExchangeErr.application resp.error)
    rw [if_pos he]

/-- Witness for C6 on a fake transport response carrying the error string
forbidden inside a cleanly framed envelope. -/
theorem exchange_application_error_witness :
    readMessage (fun _ => Except.ok (⟨403, [], [], "forbidden"⟩ : ProxyResponse))
        [0, 0, 0, 1, 0] = Except.ok (⟨403, [], [], "forbidden"⟩ : ProxyResponse) ∧
    exchangeRead (fun _ => Except.ok (⟨403, [], [], "forbidden"⟩ : ProxyResponse))
        [0, 0, 0, 1, 0] = Except.error (ExchangeErr.application "forbidden") :=
  ⟨rfl,
    (exchange_application_error (fun _ => Except.ok (⟨403, [], [], "forbidden"⟩ : ProxyResponse))
      [0, 0, 0, 1, 0] ⟨403, [], [], "forbidden"⟩ rfl).2 (by decide)⟩

/-- C10: the 4-byte prefix written by writeMessage is the big-endian
encoding of the payload length reduced modulo 2 ^ 32, so for payloads of
2 ^ 32 bytes or more the declared length wraps and no longer equals the
number of payload bytes written. -/
theorem writeMessage_length_prefix_wraps {V : Type} (marshal : V → List Nat) (v : V) :
    (writeMessage marshal v).take 4 = be32enc ((marshal v).length % M32) ∧
    (M32 ≤ (marshal v).length →
      be32dec ((writeMessage marshal v).take 4) ≠ (marshal v).length) := by
  constructor
  · rfl
  · intro hge
    show be32dec ((be32enc ((marshal v).length % M32) ++ marshal v).take 4) ≠ (marshal v).length
    rw [take4_be32, be32_roundtrip _ (Nat.mod_lt _ (by decide))]
    have hM : M32 = 4294967296 := rfl
    rw [hM] at hge ⊢
    omega

/-- Witness for C10 on a payload of exactly 2 ^ 32 zero bytes. -/
theorem writeMessage_length_prefix_wraps_witness :
    M32 ≤ ((fun _ : Unit => List.replicate M32 0) ()).length ∧
    be32dec ((writeMessage (fun _ : Unit => List.replicate M32 0) ()).take 4) ≠
      ((fun _ : Unit => List.replicate M32 0) ()).length :=
  ⟨by simp, (writeMessage_length_prefix_wraps (fun _ : Unit => List.replicate M32 0) ()).2
    (by simp)⟩
